import Mathlib

/-!
Shallow embedding of the `mapObject` runtime executor from the
`map-object-ts` repository, together with proofs of the behavioural
claims about it.

A runtime object is modelled as an association list from field names to
values (JS objects preserve insertion order of string keys, which an
association list also does).  A mapping rule is the tagged union the
source dispatches on with `typeof`: either a field-reference string
(`keyof TSource`) or a transform function.  The embedding is generic in
the value type, as the TypeScript function is generic in `TSource`;
concrete test inputs use the `Value` type covering the numbers, strings
and booleans appearing in the repository's tests.
-/

set_option autoImplicit false

namespace MapObjectTs

universe u

variable {α : Type u}

/-- A concrete runtime value, covering the value kinds used by the
repository's tests: numbers, strings and booleans. -/
inductive Value where
  | num (n : Int)
  | str (s : String)
  | bool (b : Bool)
deriving DecidableEq

/-- A runtime object: an ordered association list from property names to
values, mirroring a plain JS object. -/
def Obj (α : Type u) : Type u := List (String × α)

instance : DecidableEq (Obj Value) := by
  unfold Obj
  infer_instance

/-- A mapping rule, as dispatched on by `typeof mapping` in the source:
either a field-reference string (`keyof TSource`) or a transform function
(`MapperFunction<TSource, TReturn>`) receiving the whole source object. -/
inductive Rule (α : Type u) where
  | ref (name : String)
  | transform (f : Obj α → α)

/-- The `mapConfiguration` argument: destination field name to rule. -/
def MapConfiguration (α : Type u) : Type u := List (String × Rule α)

/-- Mirrors `MapperOptions`: carries `excludedProperties`, which may be
`undefined` at runtime (modelled by `none`; the source applies `?? []`). -/
structure MapperOptions where
  excludedProperties : Option (List String)

/-- Mirrors `MapObjectParams`: the single structured argument of
`mapObject`. -/
structure MapObjectParams (α : Type u) where
  sourceObject : Obj α
  mapConfiguration : MapConfiguration α
  options : MapperOptions

/-- Property access `o[k]` on an object or configuration record: the value
of the first entry named `k`, if any. -/
def getProp {β : Type u} (k : String) : List (String × β) → Option β
  | [] => none
  | (k2, v) :: rest => if k2 = k then some v else getProp k rest

/-- The property names of an object, in order: `Object.keys`. -/
def keys {β : Type u} (o : List (String × β)) : List String :=
  o.map Prod.fst

/-- Deduplication keeping first occurrences, mirroring
`[...new Set([...])]` (a JS `Set` keeps insertion order). -/
def dedupFirstAux (seen : List String) : List String → List String
  | [] => []
  | k :: ks =>
    if k ∈ seen then dedupFirstAux seen ks
    else k :: dedupFirstAux (k :: seen) ks

/-- Deduplication of a key list, first occurrences kept in order. -/
def dedupFirst (l : List String) : List String :=
  dedupFirstAux [] l

/-- The body of the `for (const destKey of propertiesToProcess)` loop of
`mapObject`, processing the remaining keys in order.  Each iteration
either skips an excluded key, assigns the transform result, assigns a
referenced source property that exists, falls back to the same-name
source property, or assigns nothing. -/
def processLoop (sourceObject : Obj α) (mapConfiguration : MapConfiguration α)
    (excludedProperties : List String) : List String → Obj α
  | [] => []
  | destKey :: rest =>
    if destKey ∈ excludedProperties then
      processLoop sourceObject mapConfiguration excludedProperties rest
    else
      match getProp destKey mapConfiguration with
      | some (Rule.transform f) =>
        (destKey, f sourceObject) ::
          processLoop sourceObject mapConfiguration excludedProperties rest
      | some (Rule.ref name) =>
        match getProp name sourceObject with
        | some v =>
          (destKey, v) ::
            processLoop sourceObject mapConfiguration excludedProperties rest
        | none =>
          match getProp destKey sourceObject with
          | some v =>
            (destKey, v) ::
              processLoop sourceObject mapConfiguration excludedProperties rest
          | none => processLoop sourceObject mapConfiguration excludedProperties rest
      | none =>
        match getProp destKey sourceObject with
        | some v =>
          (destKey, v) ::
            processLoop sourceObject mapConfiguration excludedProperties rest
        | none => processLoop sourceObject mapConfiguration excludedProperties rest

/-- The runtime executor `mapObject`: extracts `excludedProperties`
(defaulting to `[]`), computes `propertiesToProcess` as the deduplicated
union of the configuration keys and the source keys, and runs the
assignment loop starting from an empty destination object. -/
def mapObject (params : MapObjectParams α) : Obj α :=
  let sourceObject := params.sourceObject
  let mapConfiguration := params.mapConfiguration
  let excludedProperties := params.options.excludedProperties.getD []
  let propertiesToProcess := dedupFirst (keys mapConfiguration ++ keys sourceObject)
  processLoop sourceObject mapConfiguration excludedProperties propertiesToProcess

/-- The outcome of one loop iteration for a key `destKey`: `some v` when
the iteration assigns `v` to `destKey`, `none` when it assigns nothing. -/
def step (sourceObject : Obj α) (mapConfiguration : MapConfiguration α)
    (excludedProperties : List String) (destKey : String) : Option α :=
  if destKey ∈ excludedProperties then none
  else
    match getProp destKey mapConfiguration with
    | some (Rule.transform f) => some (f sourceObject)
    | some (Rule.ref name) =>
      match getProp name sourceObject with
      | some v => some v
      | none => getProp destKey sourceObject
    | none => getProp destKey sourceObject

/-- The transform `src => src.age >= 18` from the repository's first
test, on `Value`-objects. -/
def isAdultFn (src : Obj Value) : Value :=
  Value.bool (match getProp "age" src with
    | some (Value.num n) => decide (18 ≤ n)
    | _ => false)

/-- The source value of the first test: `{id: 1, name: "John", age: 25}`. -/
def basicSource : Obj Value :=
  [("id", Value.num 1), ("name", Value.str "John"), ("age", Value.num 25)]

/-- The mapping configuration of the first test. -/
def basicConfig : MapConfiguration Value :=
  [("userId", Rule.ref "id"), ("userName", Rule.ref "name"),
   ("isAdult", Rule.transform isAdultFn)]

/-! ## Basic lemmas about property lookup and the key lists -/

theorem getProp_eq_none_iff {β : Type u} (k : String) (o : List (String × β)) :
    getProp k o = none ↔ k ∉ keys o := by
  induction o with
  | nil => simp [getProp, keys]
  | cons p rest ih =>
    obtain ⟨k2, v⟩ := p
    by_cases h : k2 = k
    · subst h
      simp [getProp, keys]
    · rw [getProp, if_neg h, keys, List.map_cons, List.mem_cons]
      rw [keys] at ih
      rw [ih]
      constructor
      · intro hn
        rintro (h2 | h2)
        · exact h h2.symm
        · exact hn h2
      · intro hn h2
        exact hn (Or.inr h2)

theorem getProp_isSome_of_mem {β : Type u} {k : String} {o : List (String × β)}
    (h : k ∈ keys o) : (getProp k o).isSome := by
  cases hg : getProp k o with
  | none => exact absurd ((getProp_eq_none_iff k o).mp hg) (fun h2 => h2 h)
  | some v => rfl

theorem mem_keys_of_getProp {β : Type u} {k : String} {o : List (String × β)}
    {v : β} (h : getProp k o = some v) : k ∈ keys o := by
  by_contra hmem
  rw [(getProp_eq_none_iff k o).mpr hmem] at h
  exact Option.noConfusion h

theorem mem_dedupFirstAux_iff (seen : List String) (l : List String) (x : String) :
    x ∈ dedupFirstAux seen l ↔ x ∈ l ∧ x ∉ seen := by
  induction l generalizing seen with
  | nil => simp [dedupFirstAux]
  | cons k ks ih =>
    by_cases hk : k ∈ seen
    · rw [dedupFirstAux, if_pos hk, ih]
      constructor
      · rintro ⟨hx, hs⟩
        exact ⟨List.mem_cons_of_mem _ hx, hs⟩
      · rintro ⟨hx, hs⟩
        rcases List.mem_cons.mp hx with h | h
        · exact absurd (h ▸ hk) hs
        · exact ⟨h, hs⟩
    · rw [dedupFirstAux, if_neg hk]
      by_cases hxk : x = k
      · subst hxk
        simp [hk]
      · rw [List.mem_cons, ih, List.mem_cons]
        simp only [hxk, false_or, List.mem_cons]

theorem mem_dedupFirst_iff (l : List String) (x : String) :
    x ∈ dedupFirst l ↔ x ∈ l := by
  rw [dedupFirst, mem_dedupFirstAux_iff]
  simp

/-! ## Characterisation of the loop -/

theorem processLoop_cons (s : Obj α) (cfg : MapConfiguration α)
    (ex : List String) (j : String) (rest : List String) :
    processLoop s cfg ex (j :: rest) =
      match step s cfg ex j with
      | some v => (j, v) :: processLoop s cfg ex rest
      | none => processLoop s cfg ex rest := by
  rw [processLoop, step]
  by_cases hex : j ∈ ex
  · simp only [if_pos hex]
  · simp only [if_neg hex]
    cases hcfg : getProp j cfg with
    | none => dsimp only
    | some r =>
      cases r with
      | transform f => rfl
      | ref name =>
        dsimp only
        cases hname : getProp name s with
        | some v => rfl
        | none => dsimp only

theorem getProp_processLoop_of_not_mem (s : Obj α) (cfg : MapConfiguration α)
    (ex : List String) {k : String} {ks : List String} (hk : k ∉ ks) :
    getProp k (processLoop s cfg ex ks) = none := by
  induction ks with
  | nil => rfl
  | cons j rest ih =>
    have hjk : j ≠ k := fun h => hk (h ▸ List.mem_cons_self j rest)
    have hkr : k ∉ rest := fun h => hk (List.mem_cons_of_mem _ h)
    rw [processLoop_cons]
    cases step s cfg ex j with
    | none =>
      dsimp only
      exact ih hkr
    | some v =>
      dsimp only
      rw [getProp, if_neg hjk]
      exact ih hkr

theorem getProp_processLoop_of_mem (s : Obj α) (cfg : MapConfiguration α)
    (ex : List String) {k : String} {ks : List String} (hk : k ∈ ks) :
    getProp k (processLoop s cfg ex ks) = step s cfg ex k := by
  induction ks with
  | nil => exact absurd hk (List.not_mem_nil k)
  | cons j rest ih =>
    by_cases hjk : j = k
    · subst hjk
      rw [processLoop_cons]
      cases hstep : step s cfg ex j with
      | some v =>
        dsimp only
        rw [getProp, if_pos rfl]
      | none =>
        dsimp only
        by_cases hr : j ∈ rest
        · rw [ih hr]
          exact hstep
        · exact getProp_processLoop_of_not_mem s cfg ex hr
    · have hkr : k ∈ rest := by
        rcases List.mem_cons.mp hk with h | h
        · exact absurd h.symm hjk
        · exact h
      rw [processLoop_cons]
      cases step s cfg ex j with
      | none =>
        dsimp only
        exact ih hkr
      | some v =>
        dsimp only
        rw [getProp, if_neg hjk]
        exact ih hkr

theorem getProp_mapObject_of_mem {s : Obj α} {cfg : MapConfiguration α}
    {ex : List String} {k : String}
    (hk : k ∈ keys cfg ∨ k ∈ keys s) :
    getProp k (mapObject ⟨s, cfg, ⟨some ex⟩⟩) = step s cfg ex k := by
  have hmem : k ∈ dedupFirst (keys cfg ++ keys s) := by
    rw [mem_dedupFirst_iff, List.mem_append]
    exact hk
  exact getProp_processLoop_of_mem s cfg ex hmem

theorem getProp_mapObject_of_not_mem {s : Obj α} {cfg : MapConfiguration α}
    {ex : List String} {k : String}
    (hcfg : k ∉ keys cfg) (hs : k ∉ keys s) :
    getProp k (mapObject ⟨s, cfg, ⟨some ex⟩⟩) = none := by
  apply getProp_processLoop_of_not_mem
  rw [mem_dedupFirst_iff, List.mem_append]
  rintro (h | h)
  · exact hcfg h
  · exact hs h

/-- The condition for one loop iteration to assign a value when the key
occurs in the source object and is not excluded: every branch of `step`
then produces a value. -/
theorem step_isSome_of_mem_source {s : Obj α} {cfg : MapConfiguration α}
    {ex : List String} {k : String} (hk : k ∈ keys s) (hex : k ∉ ex) :
    (step s cfg ex k).isSome = true := by
  rw [step, if_neg hex]
  cases hcfg : getProp k cfg with
  | none => exact getProp_isSome_of_mem hk
  | some r =>
    cases r with
    | transform f => rfl
    | ref name =>
      dsimp only
      cases hname : getProp name s with
      | some v => rfl
      | none => exact getProp_isSome_of_mem hk

/-- Excluding a key the loop never visits does not change one iteration. -/
theorem step_cons_excluded_ne (s : Obj α) (cfg : MapConfiguration α)
    (ex : List String) {k j : String} (hjk : j ≠ k) :
    step s cfg (k :: ex) j = step s cfg ex j := by
  rw [step, step]
  by_cases hex : j ∈ ex
  · rw [if_pos (List.mem_cons_of_mem _ hex), if_pos hex]
  · have hex2 : j ∉ k :: ex := by
      intro h
      rcases List.mem_cons.mp h with h2 | h2
      · exact hjk h2
      · exact hex h2
    rw [if_neg hex2, if_neg hex]

/-- Excluding a key that is not among the processed keys does not change
the loop's output. -/
theorem processLoop_cons_excluded_not_mem (s : Obj α) (cfg : MapConfiguration α)
    (ex : List String) {k : String} {ks : List String} (hk : k ∉ ks) :
    processLoop s cfg (k :: ex) ks = processLoop s cfg ex ks := by
  induction ks with
  | nil => rfl
  | cons j rest ih =>
    have hjk : j ≠ k := fun h => hk (h ▸ List.mem_cons_self j rest)
    have hkr : k ∉ rest := fun h => hk (List.mem_cons_of_mem _ h)
    rw [processLoop_cons, processLoop_cons, step_cons_excluded_ne s cfg ex hjk]
    cases step s cfg ex j with
    | none =>
      dsimp only
      exact ih hkr
    | some v =>
      dsimp only
      rw [ih hkr]

/-! ## Concrete objects from the repository's tests -/

/-- The source of the `Configuration Options` tests:
`{id: 1, name: "Test", value: "original"}`. -/
def configSource : Obj Value :=
  [("id", Value.num 1), ("name", Value.str "Test"), ("value", Value.str "original")]

/-- The mapping of the `Configuration Options` tests: `{transformed: "value"}`. -/
def configMapping : MapConfiguration Value :=
  [("transformed", Rule.ref "value")]

/-- The destination field names of the `Configuration Options` tests:
the `Destination` interface `{id, name, transformed, optional?}`. -/
def configDestKeys : List String :=
  ["id", "name", "transformed", "optional"]

/-- C1: for source `{id: 1, name: "John", age: 25}`, mapping
`{userId: "id", userName: "name", isAdult: src => src.age >= 18}` and
exclusion list `["age", "name", "id"]`, `mapObject` returns exactly
`{userId: 1, userName: "John", isAdult: true}`. -/
theorem mapObject_basic_example :
    mapObject ⟨basicSource, basicConfig, ⟨some ["age", "name", "id"]⟩⟩ =
      [("userId", Value.num 1), ("userName", Value.str "John"),
       ("isAdult", Value.bool true)] := rfl

/-- C2, counterexample: the claim that a source field which is neither a
destination field nor excluded is never copied fails on the code.  With
the `Configuration Options` test inputs and an empty exclusion list, the
source-only field `value` (not among the destination fields
`{id, name, transformed, optional}`) does appear in the produced value,
as the repository's own test expects. -/
theorem mapObject_copies_value_counterexample :
    "value" ∈ keys configSource ∧ "value" ∉ configDestKeys ∧
      "value" ∉ ([] : List String) ∧
      getProp "value" (mapObject ⟨configSource, configMapping, ⟨some []⟩⟩) =
        some (Value.str "original") := by decide

/-- C2, amended: every source field that is not in the exclusion list is
present in the produced value, whether or not it is a destination field
(the loop iterates over all source keys, and each non-excluded one hits
an assigning branch). -/
theorem mapObject_unexcluded_source_key_present (s : Obj α)
    (cfg : MapConfiguration α) (ex : List String) (k : String)
    (hk : k ∈ keys s) (hex : k ∉ ex) :
    k ∈ keys (mapObject ⟨s, cfg, ⟨some ex⟩⟩) := by
  by_contra hmem
  have h2 : getProp k (mapObject ⟨s, cfg, ⟨some ex⟩⟩) = none :=
    (getProp_eq_none_iff _ _).mpr hmem
  rw [getProp_mapObject_of_mem (Or.inr hk)] at h2
  have h3 := @step_isSome_of_mem_source _ s cfg ex k hk hex
  rw [h2] at h3
  exact Bool.noConfusion h3

/-- C2, witness for the amended claim at the test inputs. -/
theorem mapObject_unexcluded_source_key_present_witness :
    "value" ∈ keys (mapObject ⟨configSource, configMapping, ⟨some []⟩⟩) :=
  mapObject_unexcluded_source_key_present configSource configMapping []
    "value" (by decide) (by decide)

/-- C3, counterexample: the claim that excluding a name which is not a
destination field leaves the produced value unchanged fails on the code.
`value` is not a destination field of the `Configuration Options` tests,
yet adding it to the exclusion list removes the auto-copied `value` entry
from the produced value. -/
theorem mapObject_exclude_source_only_counterexample :
    "value" ∉ configDestKeys ∧
      mapObject ⟨configSource, configMapping, ⟨some ["value"]⟩⟩ ≠
        mapObject ⟨configSource, configMapping, ⟨some []⟩⟩ := by decide

/-- C3, amended: adding to the exclusion list a name that is neither a
mapping-configuration key nor a source field name leaves the produced
value unchanged; only names among the processed candidate keys can have
an effect. -/
theorem mapObject_exclude_unprocessed_key_noop (s : Obj α)
    (cfg : MapConfiguration α) (ex : List String) (k : String)
    (hcfg : k ∉ keys cfg) (hs : k ∉ keys s) :
    mapObject ⟨s, cfg, ⟨some (k :: ex)⟩⟩ = mapObject ⟨s, cfg, ⟨some ex⟩⟩ := by
  rw [mapObject, mapObject]
  apply processLoop_cons_excluded_not_mem
  rw [mem_dedupFirst_iff, List.mem_append]
  rintro (h | h)
  · exact hcfg h
  · exact hs h

/-- C3, witness for the amended claim: excluding the unknown name `zzz`
changes nothing. -/
theorem mapObject_exclude_unprocessed_key_noop_witness :
    mapObject ⟨configSource, configMapping, ⟨some ["zzz"]⟩⟩ =
      mapObject ⟨configSource, configMapping, ⟨some []⟩⟩ :=
  mapObject_exclude_unprocessed_key_noop configSource configMapping []
    "zzz" (by decide) (by decide)

/-- The source of the dangling field-reference scenario: `{a: 1}`. -/
def danglingSource : Obj Value := [("a", Value.num 1)]

/-- A mapping whose single rule references the missing source field
`missing` under the destination key `a`, which itself exists on the
source. -/
def danglingConfig : MapConfiguration Value := [("a", Rule.ref "missing")]

/-- C4, counterexample: the claim that a field-reference naming a missing
source field leaves the destination field unset fails on the code.  With
source `{a: 1}` and mapping `{a: "missing"}`, the reference misses but
the loop falls through to the same-name auto-copy branch and sets `a` to
`1`. -/
theorem mapObject_dangling_ref_counterexample :
    "missing" ∉ keys danglingSource ∧
      getProp "a" (mapObject ⟨danglingSource, danglingConfig, ⟨some []⟩⟩) =
        some (Value.num 1) := by decide

/-- C4, amended: when a field-reference rule names a source field absent
at runtime and the destination key is not excluded, the executor falls
back to the same-name auto-copy: the destination field receives the
same-named source field's value, and is left unset only when the
destination key is itself absent from the source; no error is raised in
either case (the embedding is a total function). -/
theorem mapObject_dangling_ref_fallback (s : Obj α)
    (cfg : MapConfiguration α) (ex : List String) (k name : String)
    (hrule : getProp k cfg = some (Rule.ref name)) (hname : name ∉ keys s)
    (hex : k ∉ ex) :
    getProp k (mapObject ⟨s, cfg, ⟨some ex⟩⟩) = getProp k s := by
  have hk : k ∈ keys cfg := mem_keys_of_getProp hrule
  rw [getProp_mapObject_of_mem (Or.inl hk), step, if_neg hex, hrule]
  dsimp only
  rw [(getProp_eq_none_iff name s).mpr hname]

/-- C4, witness for the amended claim: here the destination key `b` is
absent from the source as well, so the field is left unset. -/
theorem mapObject_dangling_ref_fallback_witness :
    getProp "b" (mapObject ⟨danglingSource, [("b", Rule.ref "missing")],
      ⟨some []⟩⟩) = getProp "b" danglingSource :=
  mapObject_dangling_ref_fallback danglingSource [("b", Rule.ref "missing")]
    [] "b" "missing" rfl (by decide) (by decide)

/-- The result an explicit mapping entry computes on its own: the
transform's return value, or the referenced source field's value. -/
def ruleResult (s : Obj α) : Rule α → Option α
  | Rule.transform f => some (f s)
  | Rule.ref name => getProp name s

/-- The source of the precedence scenario: `{name: "orig", other: "repl"}`. -/
def precSource : Obj Value :=
  [("name", Value.str "orig"), ("other", Value.str "repl")]

/-- A mapping with an explicit entry for the destination key `name`,
which also exists on the source. -/
def precConfig : MapConfiguration Value := [("name", Rule.ref "other")]

/-- C5: when a destination field shares its name with a source field and
has an explicit mapping entry and is not excluded, the produced value's
field is the explicit entry's result — the transform's return value, or
the referenced source field's value (the entry's reference naming an
existing source field, as the static contract guarantees) — not the
same-name source field's value. -/
theorem mapObject_explicit_entry_wins (s : Obj α) (cfg : MapConfiguration α)
    (ex : List String) (k : String) (r : Rule α)
    (_hk : k ∈ keys s) (hex : k ∉ ex) (hrule : getProp k cfg = some r)
    (hwf : ∀ name, r = Rule.ref name → name ∈ keys s) :
    getProp k (mapObject ⟨s, cfg, ⟨some ex⟩⟩) = ruleResult s r := by
  have hkc : k ∈ keys cfg := mem_keys_of_getProp hrule
  rw [getProp_mapObject_of_mem (Or.inl hkc), step, if_neg hex, hrule]
  cases r with
  | transform f => rfl
  | ref name =>
    dsimp only
    have hname : name ∈ keys s := hwf name rfl
    rw [ruleResult]
    cases hns : getProp name s with
    | some v => rfl
    | none => exact absurd hname ((getProp_eq_none_iff name s).mp hns)

/-- C5, witness: the explicit reference to `other` overrides the
same-name auto-copy of `name`. -/
theorem mapObject_explicit_entry_wins_witness :
    getProp "name" (mapObject ⟨precSource, precConfig, ⟨some []⟩⟩) =
      getProp "other" precSource :=
  mapObject_explicit_entry_wins precSource precConfig [] "name"
    (Rule.ref "other") (by decide) (by decide) rfl
    (fun name h => by
      injection h with h2
      subst h2
      decide)

/-- C6: a field name present on the source, with no entry in the mapping
configuration and not in the exclusion list, is auto-copied: the produced
value's field equals the source value's field, unchanged. -/
theorem mapObject_same_name_passthrough (s : Obj α)
    (cfg : MapConfiguration α) (ex : List String) (k : String)
    (hk : k ∈ keys s) (hcfg : getProp k cfg = none) (hex : k ∉ ex) :
    getProp k (mapObject ⟨s, cfg, ⟨some ex⟩⟩) = getProp k s := by
  rw [getProp_mapObject_of_mem (Or.inr hk), step, if_neg hex, hcfg]

/-- The source of the automatic mapping test:
`{id: 1, name: "Test", commonProp: "value"}`. -/
def commonSource : Obj Value :=
  [("id", Value.num 1), ("name", Value.str "Test"),
   ("commonProp", Value.str "value")]

/-- The mapping of the automatic mapping test:
`{extraProp: () => "default"}`. -/
def commonConfig : MapConfiguration Value :=
  [("extraProp", Rule.transform (fun _ => Value.str "default"))]

/-- C6, witness: `commonProp` passes through unchanged. -/
theorem mapObject_same_name_passthrough_witness :
    getProp "commonProp" (mapObject ⟨commonSource, commonConfig, ⟨some []⟩⟩) =
      getProp "commonProp" commonSource :=
  mapObject_same_name_passthrough commonSource commonConfig [] "commonProp"
    (by decide) rfl (by decide)

/-- C7: every name in the exclusion list is absent from the produced
value, whether or not the mapping configuration has an entry for it and
whether or not the source has a same-named field (in particular for every
excluded name that is a destination field). -/
theorem mapObject_excluded_key_absent (s : Obj α)
    (cfg : MapConfiguration α) (ex : List String) (k : String)
    (hex : k ∈ ex) :
    k ∉ keys (mapObject ⟨s, cfg, ⟨some ex⟩⟩) := by
  rw [← getProp_eq_none_iff]
  by_cases hk : k ∈ keys cfg ∨ k ∈ keys s
  · rw [getProp_mapObject_of_mem hk, step, if_pos hex]
  · push_neg at hk
    exact getProp_mapObject_of_not_mem hk.1 hk.2

/-- C7, witness: the excluded destination-side name `age` is absent from
the basic example's result. -/
theorem mapObject_excluded_key_absent_witness :
    "age" ∉ keys (mapObject ⟨basicSource, basicConfig,
      ⟨some ["age", "name", "id"]⟩⟩) :=
  mapObject_excluded_key_absent basicSource basicConfig
    ["age", "name", "id"] "age" (by decide)

/-- C9: the executor is deterministic — two invocations on equal
parameter records produce equal results.  Transform functions are Lean
functions, hence deterministic by construction, matching the claim's
assumption. -/
theorem mapObject_deterministic (p q : MapObjectParams α) (h : p = q) :
    mapObject p = mapObject q := by rw [h]

/-- C9, witness at the basic example's inputs. -/
theorem mapObject_deterministic_witness :
    mapObject ⟨configSource, configMapping, ⟨some ["value"]⟩⟩ =
      mapObject ⟨configSource, configMapping, ⟨some ["value"]⟩⟩ :=
  mapObject_deterministic _ _ rfl

/-- C10: exclusion is keyed solely by the candidate destination-side
name, never by the name a field-reference points at: when a non-excluded
destination key's rule references a source field that IS in the exclusion
list, the referenced source field's value is still copied. -/
theorem mapObject_exclusion_keyed_by_dest (s : Obj α)
    (cfg : MapConfiguration α) (ex : List String) (k name : String)
    (hrule : getProp k cfg = some (Rule.ref name)) (hkex : k ∉ ex)
    (_hnex : name ∈ ex) (hname : name ∈ keys s) :
    getProp k (mapObject ⟨s, cfg, ⟨some ex⟩⟩) = getProp name s := by
  have hkc : k ∈ keys cfg := mem_keys_of_getProp hrule
  rw [getProp_mapObject_of_mem (Or.inl hkc), step, if_neg hkex, hrule]
  dsimp only
  cases hns : getProp name s with
  | some v => rfl
  | none => exact absurd hname ((getProp_eq_none_iff name s).mp hns)

/-- C10, witness: the excluded `value` is still copied into
`transformed`, as the repository's exclusion test expects. -/
theorem mapObject_exclusion_keyed_by_dest_witness :
    getProp "transformed" (mapObject ⟨configSource, configMapping,
      ⟨some ["value", "name"]⟩⟩) = getProp "value" configSource :=
  mapObject_exclusion_keyed_by_dest configSource configMapping
    ["value", "name"] "transformed" "value" rfl (by decide) (by decide)
    (by decide)

end MapObjectTs
